import Mathlib

/-
Verification of the FIRMS active-fires ingestion pipeline
(src/services/firms_nominatim_service.py) against its specification.

The Python service is shallowly embedded below.  DataFrame columns become
lists, rows become structures, fallible steps return Except, and the pandas
timestamp parser is modelled after the strptime regular-expression engine
that pandas array_strptime uses (Python TimeRE field patterns, leftmost
alternative with backtracking, full-consumption check, calendar
validation).  Floating point coordinates and brightness values only ever
flow through the pipeline unchanged or get compared for equality, so they
are modelled as integers.
-/

namespace ActiveFires

/-- Calendar date, as produced by datetime.date.today() in the source. -/
structure Date where
  year : Nat
  month : Nat
  day : Nat
deriving Repr, DecidableEq

/-- Timestamp value, the model of a pandas Timestamp produced by
pd.to_datetime in process_csv_data. -/
structure DateTime where
  year : Nat
  month : Nat
  day : Nat
  hour : Nat
  minute : Nat
  second : Nat
deriving Repr, DecidableEq

/-- Numeric value of an ASCII digit character. -/
def charDigit (c : Char) : Nat := c.toNat - 48

/-- One alternative of a strptime field pattern: consume a prefix of the
character stream and return the numeric field value with the remaining
stream, or fail. -/
def FieldAlt : Type := List Char → Option (Nat × List Char)

/-- Try the alternatives of one regex field in order, each followed by the
continuation for the rest of the pattern; on continuation failure the next
alternative is tried.  This is exactly the leftmost-alternative
backtracking of the Python re engine on which strptime field patterns
(and hence pandas array_strptime) are built. -/
def tryAlts {α : Type} (alts : List FieldAlt) (k : Nat → List Char → Option α)
    (cs : List Char) : Option α :=
  match alts with
  | [] => none
  | a :: rest =>
    match a cs with
    | some (v, cs2) =>
      match k v cs2 with
      | some r => some r
      | none => tryAlts rest k cs
    | none => tryAlts rest k cs

/-- Python TimeRE pattern for %m, in alternative order: 1[0-2] | 0[1-9] | [1-9]. -/
def monthAlts : List FieldAlt :=
  [ fun cs =>
      match cs with
      | '1' :: c :: r => if '0' ≤ c ∧ c ≤ '2' then some (10 + charDigit c, r) else none
      | _ => none,
    fun cs =>
      match cs with
      | '0' :: c :: r => if '1' ≤ c ∧ c ≤ '9' then some (charDigit c, r) else none
      | _ => none,
    fun cs =>
      match cs with
      | c :: r => if '1' ≤ c ∧ c ≤ '9' then some (charDigit c, r) else none
      | _ => none ]

/-- Python TimeRE pattern for %d: 3[01] | [12]\d | 0[1-9] | [1-9]. -/
def dayAlts : List FieldAlt :=
  [ fun cs =>
      match cs with
      | '3' :: c :: r => if '0' ≤ c ∧ c ≤ '1' then some (30 + charDigit c, r) else none
      | _ => none,
    fun cs =>
      match cs with
      | c1 :: c2 :: r =>
        if ('1' ≤ c1 ∧ c1 ≤ '2') ∧ c2.isDigit then
          some (10 * charDigit c1 + charDigit c2, r)
        else none
      | _ => none,
    fun cs =>
      match cs with
      | '0' :: c :: r => if '1' ≤ c ∧ c ≤ '9' then some (charDigit c, r) else none
      | _ => none,
    fun cs =>
      match cs with
      | c :: r => if '1' ≤ c ∧ c ≤ '9' then some (charDigit c, r) else none
      | _ => none ]

/-- Python TimeRE pattern for %H: 2[0-3] | [0-1]\d | \d. -/
def hourAlts : List FieldAlt :=
  [ fun cs =>
      match cs with
      | '2' :: c :: r => if '0' ≤ c ∧ c ≤ '3' then some (20 + charDigit c, r) else none
      | _ => none,
    fun cs =>
      match cs with
      | c1 :: c2 :: r =>
        if ('0' ≤ c1 ∧ c1 ≤ '1') ∧ c2.isDigit then
          some (10 * charDigit c1 + charDigit c2, r)
        else none
      | _ => none,
    fun cs =>
      match cs with
      | c :: r => if c.isDigit then some (charDigit c, r) else none
      | _ => none ]

/-- Python TimeRE pattern for %M: [0-5]\d | \d. -/
def minuteAlts : List FieldAlt :=
  [ fun cs =>
      match cs with
      | c1 :: c2 :: r =>
        if ('0' ≤ c1 ∧ c1 ≤ '5') ∧ c2.isDigit then
          some (10 * charDigit c1 + charDigit c2, r)
        else none
      | _ => none,
    fun cs =>
      match cs with
      | c :: r => if c.isDigit then some (charDigit c, r) else none
      | _ => none ]

/-- Python TimeRE pattern for %S: 6[0-1] | [0-5]\d | \d. -/
def secondAlts : List FieldAlt :=
  [ fun cs =>
      match cs with
      | '6' :: c :: r => if '0' ≤ c ∧ c ≤ '1' then some (60 + charDigit c, r) else none
      | _ => none,
    fun cs =>
      match cs with
      | c1 :: c2 :: r =>
        if ('0' ≤ c1 ∧ c1 ≤ '5') ∧ c2.isDigit then
          some (10 * charDigit c1 + charDigit c2, r)
        else none
      | _ => none,
    fun cs =>
      match cs with
      | c :: r => if c.isDigit then some (charDigit c, r) else none
      | _ => none ]

/-- Python TimeRE pattern for %Y: \d\d\d\d (no alternatives). -/
def matchYear : List Char → Option (Nat × List Char)
  | a :: b :: c :: d :: r =>
    if a.isDigit ∧ b.isDigit ∧ c.isDigit ∧ d.isDigit then
      some (1000 * charDigit a + 100 * charDigit b + 10 * charDigit c + charDigit d, r)
    else none
  | _ => none

/-- Gregorian leap-year rule used by the Python datetime module. -/
def isLeapYear (y : Nat) : Bool :=
  decide ((y % 4 = 0 ∧ y % 100 ≠ 0) ∨ y % 400 = 0)

/-- Number of days of a month, as validated by datetime construction. -/
def daysInMonth (y m : Nat) : Nat :=
  if m = 2 then (if isLeapYear y then 29 else 28)
  else if m = 4 ∨ m = 6 ∨ m = 9 ∨ m = 11 then 30 else 31

/-- Calendar validity check performed when the parsed fields are turned
into a timestamp (month range 1..12 is already enforced by the %m
pattern).  The nanosecond representable range of pandas (years
1677..2262) is not modelled; all inputs of interest are current dates. -/
def validYmd (y m d : Nat) : Bool :=
  decide (1 ≤ y ∧ 1 ≤ d ∧ d ≤ daysInMonth y m)

/-- Model of pd.to_datetime(s, format="%Y-%m-%d %H%M%S", errors="coerce")
on one string, as executed by pandas array_strptime: the format compiles
via TimeRE to the regex
  \d\d\d\d - (1[0-2]|0[1-9]|[1-9]) - (3[01]|[12]\d|0[1-9]|[1-9]) spc
  (2[0-3]|[0-1]\d|\d) ([0-5]\d|\d) (6[0-1]|[0-5]\d|\d)
which is matched with backtracking, the whole string must be consumed
(otherwise: unconverted data remain), the field values must form a valid
timestamp; any failure becomes NaT (none).  Note the format carries a
seconds field even though the source feeds only four time digits. -/
def strptimeYmdHMS (s : String) : Option DateTime :=
  match matchYear s.data with
  | none => none
  | some (y, cs1) =>
    match cs1 with
    | '-' :: cs2 =>
      tryAlts monthAlts (fun mo cs3 =>
        match cs3 with
        | '-' :: cs4 =>
          tryAlts dayAlts (fun dy cs5 =>
            match cs5 with
            | ' ' :: cs6 =>
              tryAlts hourAlts (fun h cs7 =>
                tryAlts minuteAlts (fun mi cs8 =>
                  tryAlts secondAlts (fun se cs9 =>
                    if cs9 = [] ∧ validYmd y mo dy = true ∧ se ≤ 59 then
                      some ⟨y, mo, dy, h, mi, se⟩
                    else none) cs8) cs7) cs6
            | _ => none) cs4
        | _ => none) cs2
    | _ => none

/-- Model of pandas Series.str.pad(width=4, side="left", fillchar="0"). -/
def padLeftZeros (w : Nat) (s : String) : String :=
  if s.length < w then String.mk (List.replicate (w - s.length) '0') ++ s else s

/-- Model of Python str.zfill(4): left pad with zeros, keeping a leading
sign character in front of the inserted zeros. -/
def zfill4 (s : String) : String :=
  if 4 ≤ s.length then s
  else
    match s.data with
    | c :: rest =>
      if c = '+' ∨ c = '-' then
        String.mk (c :: List.replicate (4 - s.length) '0' ++ rest)
      else String.mk (List.replicate (4 - s.length) '0' ++ s.data)
    | [] => String.mk (List.replicate 4 '0')

/-- Lines 125-130 of the source for a single row: acq_time is padded to
width 4, then zfill(4) is applied to it inside the concatenation with
acq_date, and the combined string is parsed with format
"%Y-%m-%d %H%M%S". -/
def parseAcqDatetime (acq_date acq_time : String) : Option DateTime :=
  strptimeYmdHMS (acq_date ++ " " ++ zfill4 (padLeftZeros 4 acq_time))

/-- Model of pd.Timestamp(s) for a dash-separated date string, used only
to model the comparison data["acq_date"].max() == pd.Timestamp(date.today())
on line 137: Python string equality with a Timestamp falls back to
Timestamp.__eq__, which parses the string and compares date values (an
unparseable string compares unequal).  Only the dash-separated shape is
modelled; every acq_date of a batch that survives the parse check on
lines 132-134 necessarily has this shape. -/
def parseDateYmd (s : String) : Option Date :=
  match matchYear s.data with
  | none => none
  | some (y, cs1) =>
    match cs1 with
    | '-' :: cs2 =>
      tryAlts monthAlts (fun mo cs3 =>
        match cs3 with
        | '-' :: cs4 =>
          tryAlts dayAlts (fun dy cs5 =>
            if cs5 = [] ∧ validYmd y mo dy = true then some (⟨y, mo, dy⟩ : Date)
            else none) cs4
        | _ => none) cs2
    | _ => none

/-- Model of Series.max() on the acq_date string column: the Python
(code-point lexicographic) maximum of the strings, none for an empty
column (pandas returns NaN there, which compares unequal to any
Timestamp). -/
def maxString? : List String → Option String
  | [] => none
  | s :: rest => some (rest.foldl (fun a b => if a.data < b.data then b else a) s)

/-- Model of Series.rank(method="dense", ascending=False).astype(int) on
the acq_date string column, for one value: pandas dense descending rank
assigns 1 to the largest distinct value, 2 to the next distinct value and
so on, i.e. one plus the number of distinct column values strictly
greater than the given one (Python string comparison, code-point
lexicographic). -/
def pandasDenseRankDesc (dates : List String) (d : String) : Nat :=
  ((dates.dedup).filter (fun e => decide (d.data < e.data))).length + 1

/-- Dense descending rank as the claim words it: one plus the position
of the date in the list of the distinct dates sorted in descending
order.  Proved below to agree with the pandas formulation. -/
def specDenseRankDesc (dates : List String) (d : String) : Nat :=
  ((dates.dedup).mergeSort (fun a b => !decide (a.data < b.data))).findIdx
    (fun e => decide (e = d)) + 1

/-- The claim-relevant per-row raw feed fields besides confidence.
Passthrough columns that the normalizer never reads (latitude,
brightness, scan, ...) are modelled at the combiner stage instead. -/
structure RawRow where
  acq_date : String
  acq_time : String
  satellite : String
deriving Repr, DecidableEq

/-- A raw feed batch after pd.read_csv, branched on the dtype of the
confidence column exactly as lines 105 and 114 do: a numeric-dtype
column (MODIS integer confidence), a string-dtype column (VIIRS textual
confidence), or any other dtype (neither branch taken).  Each confidence
value is paired with its row; for the last case the str() rendering of
the value is carried, since line 148 stringifies the column. -/
inductive RawBatch
  | numeric (rows : List (Int × RawRow))
  | textual (rows : List (String × RawRow))
  | otherRep (rows : List (String × RawRow))
deriving Repr

/-- The raw rows of a batch, dtype branch erased. -/
def RawBatch.raws : RawBatch → List RawRow
  | .numeric rows => rows.map (fun p => p.2)
  | .textual rows => rows.map (fun p => p.2)
  | .otherRep rows => rows.map (fun p => p.2)

/-- Lines 104-122 and 148: per row, the str() form of the confidence
value and the high_confidence flag.  Numeric dtype: flag holds iff
confidence >= 70.  String dtype: flag holds iff the value is in
["nominal", "high"].  Any other dtype: the column keeps its initial
False. -/
def RawBatch.classified : RawBatch → List (String × Bool × RawRow)
  | .numeric rows => rows.map (fun p => (toString p.1, decide (70 ≤ p.1), p.2))
  | .textual rows =>
    rows.map (fun p => (p.1, decide (p.1 ∈ (["nominal", "high"] : List String)), p.2))
  | .otherRep rows => rows.map (fun p => (p.1, false, p.2))

/-- Lines 107-122: which source columns get renamed to brightness_a and
brightness_b.  Numeric branch: brightness and bright_t31.  String
branch: bright_ti4 and bright_ti5.  Other dtype: no rename happens and
the brightness fields stay unset. -/
def RawBatch.brightnessSource : RawBatch → Option (String × String)
  | .numeric _ => some ("brightness", "bright_t31")
  | .textual _ => some ("bright_ti4", "bright_ti5")
  | .otherRep _ => none

/-- One normalized detection record as produced by process_csv_data. -/
structure ProcRow where
  acq_date : String
  acq_time : String
  satellite : String
  confidence : String
  high_confidence : Bool
  acq_datetime : DateTime
  days_ago : Nat
deriving Repr, DecidableEq

/-- The result of process_csv_data: the normalized rows plus the record
of which source columns were renamed onto brightness_a/brightness_b. -/
structure ProcBatch where
  rows : List ProcRow
  brightnessSource : Option (String × String)
deriving Repr, DecidableEq

/-- Line 137: whether the lexicographically largest acq_date string
compares equal to pd.Timestamp(date.today()). -/
def mostRecentEqualsToday (dates : List String) (today : Date) : Bool :=
  match maxString? dates with
  | some s => decide (parseDateYmd s = some today)
  | none => false

/-- Model of process_csv_data (lines 90-154) on a batch whose required
columns (confidence, acq_date, acq_time, satellite) are present, which
the embedding enforces structurally; today is the value of
date.today().  Steps in source order: confidence classification and
brightness rename (modelled in RawBatch.classified and
RawBatch.brightnessSource), acq_time padding, acquisition datetime
parsing with batch-wide failure on any NaT, days_ago dense ranking with
the today offset, and stringification of satellite and confidence. -/
def process_csv_data (b : RawBatch) (today : Date) : Except String ProcBatch :=
  if (b.classified.map (fun t => parseAcqDatetime t.2.2.acq_date t.2.2.acq_time)).any
      (fun o => o.isNone) then
    Except.error "Error converting acquisition datetime"
  else
    Except.ok
      ⟨b.classified.map (fun t =>
        ⟨t.2.2.acq_date,
         padLeftZeros 4 t.2.2.acq_time,
         t.2.2.satellite,
         t.1,
         t.2.1,
         (parseAcqDatetime t.2.2.acq_date t.2.2.acq_time).getD ⟨0, 0, 0, 0, 0, 0⟩,
         if mostRecentEqualsToday (b.classified.map (fun t2 => t2.2.2.acq_date)) today then
           pandasDenseRankDesc (b.classified.map (fun t2 => t2.2.2.acq_date)) t.2.2.acq_date - 1
         else
           pandasDenseRankDesc (b.classified.map (fun t2 => t2.2.2.acq_date)) t.2.2.acq_date⟩),
       b.brightnessSource⟩

/-- One normalized record entering convert_firms_urls_to_combined_gdf,
with every column that function touches.  Coordinates and brightness
values are only carried along or compared for equality, so they are
modelled as integers; brightness values are optional because the other
confidence representation leaves the brightness columns unset. -/
structure DetRow where
  latitude : Int
  longitude : Int
  brightness_a : Option Int
  brightness_b : Option Int
  scan : Int
  track : Int
  acq_date : String
  acq_time : String
  satellite : String
  confidence : String
  version : String
  daynight : String
  high_confidence : Bool
  acq_datetime : DateTime
  days_ago : Nat
deriving Repr, DecidableEq

/-- Line 186: the subset of columns on which duplicates are dropped. -/
def dedupKey (r : DetRow) : Int × Int × DateTime × String × String :=
  (r.latitude, r.longitude, r.acq_datetime, r.confidence, r.version)

/-- Order-reflecting encoding of a timestamp: for timestamps with month
at most 12, day at most 31, hour at most 23 and minute and second at
most 59 (all guaranteed by the parser), the encoding is strictly
monotone in chronological order, so comparing encodings is comparing
timestamps. -/
def dtCode (d : DateTime) : Nat :=
  ((((d.year * 13 + d.month) * 32 + d.day) * 24 + d.hour) * 60 + d.minute) * 60 + d.second

/-- Chronological comparison of timestamps used by the ascending
sort_values on line 190. -/
def dtLe (a b : DateTime) : Bool := decide (dtCode a ≤ dtCode b)

/-- Lines 186-187: drop_duplicates(subset=unique_columns, keep="last"),
which keeps, for every key, only the last row carrying that key, at its
original position. -/
def dropDupKeepLast : List DetRow → List DetRow
  | [] => []
  | r :: rest =>
    if rest.any (fun x => decide (dedupKey x = dedupKey r)) then dropDupKeepLast rest
    else r :: dropDupKeepLast rest

/-- Lines 166-190 of convert_firms_urls_to_combined_gdf given the three
normalized feeds (the per-URL fetch+normalize calls are the functions
modelled above; network transport is outside the embedding): concatenate
an initial empty frame with the three feeds, keep high-confidence rows,
drop duplicates keeping the last, sort ascending by acq_datetime. -/
def combineDetRows (l1 l2 l3 : List DetRow) : List DetRow :=
  (dropDupKeepLast ((([] : List DetRow) ++ l1 ++ l2 ++ l3).filter
    (fun r => r.high_confidence))).mergeSort (fun a b => dtLe a.acq_datetime b.acq_datetime)

/-- One record of the final GeoDataFrame: the transient columns scan,
track, acq_date, acq_time, brightness_a, brightness_b and daynight
(line 191) are structurally absent, geometry is the point built from
longitude and latitude (line 197), and acq_datetime is the strftime
rendering of line 202. -/
structure OutRow where
  latitude : Int
  longitude : Int
  satellite : String
  confidence : String
  version : String
  high_confidence : Bool
  days_ago : Nat
  acq_datetime : String
  geometry : Int × Int
deriving Repr, DecidableEq

/-- strftime("%Y-%m-%d_%H:%M:%S") for one timestamp. -/
def fmtDateTime (d : DateTime) : String :=
  padLeftZeros 4 (toString d.year) ++ "-" ++ padLeftZeros 2 (toString d.month) ++ "-" ++
    padLeftZeros 2 (toString d.day) ++ "_" ++ padLeftZeros 2 (toString d.hour) ++ ":" ++
    padLeftZeros 2 (toString d.minute) ++ ":" ++ padLeftZeros 2 (toString d.second)

/-- Lines 191-202 for one kept row: drop the transient columns, attach
the point geometry from (longitude, latitude), render the timestamp. -/
def projectRow (r : DetRow) : OutRow :=
  ⟨r.latitude, r.longitude, r.satellite, r.confidence, r.version, r.high_confidence,
   r.days_ago, fmtDateTime r.acq_datetime, (r.longitude, r.latitude)⟩

/-- The final combined GeoDataFrame with its coordinate reference. -/
structure CombinedGdf where
  rows : List OutRow
  crs : String
deriving Repr, DecidableEq

/-- convert_firms_urls_to_combined_gdf (lines 157-204) given the three
normalized feeds; the gdf is built with crs="EPSG:4326" on line 198. -/
def convert_firms_to_combined_gdf (l1 l2 l3 : List DetRow) : CombinedGdf :=
  ⟨(combineDetRows l1 l2 l3).map projectRow, "EPSG:4326"⟩

/-- A GeoDataFrame of point records: whether a geometry column is
present, the rows (point geometry paired with the remaining attributes,
of abstract type A), and the coordinate reference string.  The point
geometry type is abstract. -/
structure PointGdf (Pt A : Type) where
  hasGeometryCol : Bool
  rows : List (Pt × A)
  crs : String
deriving Repr, DecidableEq

/-- A GeoDataFrame of boundary polygons (abstract polygon type). -/
structure PolyGdf (Poly : Type) where
  hasGeometryCol : Bool
  polys : List Poly
  crs : String
deriving Repr, DecidableEq

/-- Reprojection of a row list: each geometry is transformed, each
attribute part is untouched; failure of any point fails the whole
transform. -/
def reprojectRows {Pt A : Type} (reproj : Pt → Option Pt) :
    List (Pt × A) → Option (List (Pt × A))
  | [] => some []
  | r :: rest =>
    match reproj r.1, reprojectRows reproj rest with
    | some p, some rest2 => some ((p, r.2) :: rest2)
    | _, _ => none

/-- to_crs on a point GeoDataFrame, modelled by a per-point reprojection
function (target reference system, point) that may fail; failure models
the exception caught on lines 323-327. -/
def reprojectGdf {Pt A : Type} (reproj : String → Pt → Option Pt)
    (g : PointGdf Pt A) (target : String) : Option (PointGdf Pt A) :=
  match reprojectRows (reproj target) g.rows with
  | none => none
  | some rows2 => some ⟨g.hasGeometryCol, rows2, target⟩

/-- Lines 322-327: reproject the point frame into the polygon frame
reference if the two differ, otherwise leave it unchanged. -/
def reconcileCrs {Pt Poly A : Type} (reproj : String → Pt → Option Pt)
    (firms : PointGdf Pt A) (country : PolyGdf Poly) : Option (PointGdf Pt A) :=
  if firms.crs ≠ country.crs then reprojectGdf reproj firms country.crs else some firms

/-- filter_firms_points_within_country_area (lines 294-339).  The
isinstance checks are enforced by the embedding types; then, in source
order: geometry-column check, emptiness check, CRS reconciliation with
its failure wrapped into an error, and retention of exactly the points
lying within at least one polygon (any over country_gdf.geometry).  The
within predicate on valid geometries is total, so the try/except around
the containment loop has no failing path in the model. -/
def filter_firms_points_within_country_area {Pt Poly A : Type}
    (within : Pt → Poly → Bool) (reproj : String → Pt → Option Pt)
    (firms : PointGdf Pt A) (country : PolyGdf Poly) :
    Except String (PointGdf Pt A) :=
  if firms.hasGeometryCol = false ∨ country.hasGeometryCol = false then
    Except.error "One or both of the GeoDataFrames do not have geometry data"
  else if firms.rows.isEmpty ∨ country.polys.isEmpty then
    Except.error "One or both of the GeoDataFrames is empty"
  else
    match reconcileCrs reproj firms country with
    | none => Except.error "Error in transforming CRS of the GeoDataFrame"
    | some firms2 =>
      Except.ok ⟨firms2.hasGeometryCol,
        firms2.rows.filter (fun r => country.polys.any (fun poly => within r.1 poly)),
        firms2.crs⟩

/-- An axis-aligned rectangular polygon, a concrete polygon instance for
the containment claims. -/
structure Rect where
  xmin : Int
  ymin : Int
  xmax : Int
  ymax : Int
deriving Repr, DecidableEq

/-- shapely point.within(polygon) for a rectangular polygon: by the
DE-9IM definition used by shapely, a point is within a polygon exactly
when it lies in the interior of the polygon, which for an axis-aligned
rectangle means strict inequalities on both coordinates; a point on the
boundary ring is not within. -/
def pointWithinRect (p : Int × Int) (r : Rect) : Bool :=
  decide (r.xmin < p.1 ∧ p.1 < r.xmax ∧ r.ymin < p.2 ∧ p.2 < r.ymax)

/-- Membership in the closed rectangle (interior plus boundary ring). -/
def pointInClosedRect (p : Int × Int) (r : Rect) : Bool :=
  decide (r.xmin ≤ p.1 ∧ p.1 ≤ r.xmax ∧ r.ymin ≤ p.2 ∧ p.2 ≤ r.ymax)

/-- Membership in the boundary ring of the rectangle. -/
def pointOnRectBoundary (p : Int × Int) (r : Rect) : Bool :=
  pointInClosedRect p r && !pointWithinRect p r

/-- State of the functools.lru_cache attached to
convert_firms_urls_to_combined_gdf on line 157: the cached entries, most
recently used first.  The decorator is applied with no arguments, so the
cache holds at most 128 entries (the functools default). -/
structure LruCache (κ ρ : Type) where
  entries : List (κ × ρ)
deriving Repr, DecidableEq

/-- One call through the lru_cache wrapper for the pure underlying
function f: on a hit the stored result is returned with no computation
and the entry moves to the most-recent position; on a miss the result is
computed, inserted at the most-recent position, and the least recently
used entry is evicted if the cache exceeds maxsize.  The returned flag
records whether the underlying function was invoked. -/
def lruCall {κ ρ : Type} [DecidableEq κ] (maxsize : Nat) (f : κ → ρ)
    (st : LruCache κ ρ) (k : κ) : LruCache κ ρ × ρ × Bool :=
  match st.entries.find? (fun e => decide (e.1 = k)) with
  | some e => (⟨(k, e.2) :: st.entries.filter (fun e2 => decide (e2.1 ≠ k))⟩, e.2, false)
  | none => (⟨((k, f k) :: st.entries).take maxsize⟩, f k, true)

/-- A sequence of calls through the wrapper, returning the final cache
and the per-call log of (key, returned value, computed flag). -/
def lruRun {κ ρ : Type} [DecidableEq κ] (maxsize : Nat) (f : κ → ρ)
    (st : LruCache κ ρ) : List κ → LruCache κ ρ × List (κ × ρ × Bool)
  | [] => (st, [])
  | k :: ks =>
    let c1 := lruCall maxsize f st k
    let c2 := lruRun maxsize f c1.1 ks
    (c2.1, (k, c1.2.1, c1.2.2) :: c2.2)

/-- How many times a sequence of calls starting from the empty cache
invokes the underlying computation for key k. -/
def lruComputeCount {κ ρ : Type} [DecidableEq κ] (maxsize : Nat) (f : κ → ρ)
    (ks : List κ) (k : κ) : Nat :=
  (((lruRun maxsize f ⟨[]⟩ ks).2).filter (fun e => decide (e.1 = k) && e.2.2)).length

/-- Line 15 of the source. -/
def FIRMS_API_URL : String := "https://firms.modaps.eosdis.nasa.gov"

/-- The character set of line 53. -/
def hexDigits : List Char := "0123456789abcdef".data

/-- create_firms_csv_urls (lines 44-62): reject an empty key, then
reject unless every character of the lowercased key is a hexadecimal
digit and the length is exactly 32, else build the three fixed product
URLs.  The function is pure string construction; no network access is
modelled because none happens. -/
def create_firms_csv_urls (firms_key : String) : Except String (String × String × String) :=
  if firms_key = "" then
    Except.error "FIRMS key is required and cannot be empty."
  else if ¬ (firms_key.data.all (fun c => hexDigits.contains c.toLower) = true) ∨
      firms_key.length ≠ 32 then
    Except.error "Invalid FIRMS key. Key should be a 32-character hexadecimal string."
  else
    Except.ok
      (FIRMS_API_URL ++ "/api/area/csv/" ++ firms_key ++ "/MODIS_NRT/world/9",
       FIRMS_API_URL ++ "/api/area/csv/" ++ firms_key ++ "/VIIRS_NOAA20_NRT/world/9",
       FIRMS_API_URL ++ "/api/area/csv/" ++ firms_key ++ "/VIIRS_SNPP_NRT/world/9")

/-- The credential invariant exactly as the specification words it:
exactly 32 lowercase hexadecimal characters.  This definition follows
the words of the spec, for comparison against the source behaviour. -/
def specLowercaseHex32 (s : String) : Bool :=
  decide (s.length = 32) && s.data.all (fun c => hexDigits.contains c)

/-- Witness data: a numeric-confidence batch with the confidence values
85 and 50 named by the specification examples. -/
def rowTerra : RawRow := ⟨"2024-01-02", "110", "Terra"⟩

/-- Witness data: second row of the numeric witness batch. -/
def rowAqua : RawRow := ⟨"2024-01-01", "2200", "Aqua"⟩

/-- Witness data: the numeric-confidence batch. -/
def batchNumeric : RawBatch := RawBatch.numeric [(85, rowTerra), (50, rowAqua)]

/-- Witness data: the normalized result of batchNumeric on 2024-01-02. -/
def procNumeric : ProcBatch :=
  ⟨[⟨"2024-01-02", "0110", "Terra", "85", true, ⟨2024, 1, 2, 1, 1, 0⟩, 0⟩,
    ⟨"2024-01-01", "2200", "Aqua", "50", false, ⟨2024, 1, 1, 22, 0, 0⟩, 1⟩],
   some ("brightness", "bright_t31")⟩

/-- Witness data: a textual batch whose single row has month 13, an
unparseable acquisition date. -/
def batchBadDate : RawBatch := RawBatch.textual [("high", ⟨"2024-13-01", "0930", "N"⟩)]

/-- Witness data: one high-confidence detection row. -/
def detSample : DetRow :=
  ⟨105, 47, some 330, some 290, 1, 1, "2024-01-01", "0930", "Terra", "85", "6.1NRT", "D",
   true, ⟨2024, 1, 1, 9, 3, 0⟩, 0⟩

/-- Witness data: a boundary frame with one unit rectangle. -/
def unitCountry : PolyGdf Rect := ⟨true, [⟨0, 0, 10, 10⟩], "EPSG:4326"⟩

/-- Witness data: one point inside the rectangle, one outside. -/
def samplePoints : PointGdf (Int × Int) String :=
  ⟨true, [((5, 5), "inside"), ((20, 20), "outside")], "EPSG:4326"⟩

/-- Witness data: an empty point frame. -/
def emptyFirms : PointGdf (Int × Int) String := ⟨true, [], "EPSG:4326"⟩

/-- Witness data: a point frame with one boundary point of the unit
rectangle and one interior point. -/
def boundaryFirms : PointGdf (Int × Int) String :=
  ⟨true, [((0, 5), "edge"), ((5, 5), "inside")], "EPSG:4326"⟩

/-- Witness data: what the filter keeps of boundaryFirms. -/
def filteredBoundary : PointGdf (Int × Int) String :=
  ⟨true, [((5, 5), "inside")], "EPSG:4326"⟩

/-- The cached keys of a cache state, most recently used first. -/
def LruCache.keys {κ ρ : Type} (st : LruCache κ ρ) : List κ := st.entries.map Prod.fst

/-- Invariant of reachable cache states: the cached keys are exactly
the set of keys seen so far, without repetition, and every entry stores
the value of the underlying function at its key. -/
def lruGood {κ ρ : Type} [DecidableEq κ] (f : κ → ρ) (seen : Finset κ)
    (st : LruCache κ ρ) : Prop :=
  (∀ k, k ∈ st.keys ↔ k ∈ seen) ∧ st.keys.Nodup ∧ ∀ e ∈ st.entries, e.2 = f e.1

/-! ## Theorems for the claims -/

/-- The classified rows carry exactly the raw rows, in order. -/
theorem classified_snd_eq_raws (b : RawBatch) :
    b.classified.map (fun t => t.2.2) = b.raws := by
  cases b <;> simp [RawBatch.classified, RawBatch.raws]

/-- The acq_date column read off the classified rows is the acq_date
column of the raw rows. -/
theorem classified_dates_eq (b : RawBatch) :
    b.classified.map (fun t => t.2.2.acq_date) = b.raws.map (fun r => r.acq_date) := by
  cases b <;> simp [RawBatch.classified, RawBatch.raws]

/-- The NaT guard of process_csv_data fires exactly when some raw row
has an unparseable acquisition datetime. -/
theorem parse_guard_iff (b : RawBatch) :
    (b.classified.map (fun t => parseAcqDatetime t.2.2.acq_date t.2.2.acq_time)).any
        (fun o => o.isNone) = true ↔
      ∃ r ∈ b.raws, parseAcqDatetime r.acq_date r.acq_time = none := by
  rw [List.any_eq_true]
  constructor
  · rintro ⟨o, ho, hn⟩
    obtain ⟨t, ht, rfl⟩ := List.mem_map.mp ho
    refine ⟨t.2.2, ?_, ?_⟩
    · rw [← classified_snd_eq_raws b]
      exact List.mem_map_of_mem _ ht
    · simpa [Option.isNone_iff_eq_none] using hn
  · rintro ⟨r, hr, hn⟩
    rw [← classified_snd_eq_raws b] at hr
    obtain ⟨t, ht, rfl⟩ := List.mem_map.mp hr
    refine ⟨parseAcqDatetime t.2.2.acq_date t.2.2.acq_time, List.mem_map_of_mem _ ht, ?_⟩
    simpa [Option.isNone_iff_eq_none] using hn

/-- The running maximum computed by maxString? either is the start value
or occurs in the list. -/
theorem foldl_max_mem (l : List String) (a : String) :
    l.foldl (fun x b => if x.data < b.data then b else x) a = a ∨
      l.foldl (fun x b => if x.data < b.data then b else x) a ∈ l := by
  induction l generalizing a with
  | nil => exact Or.inl rfl
  | cons b t ih =>
    simp only [List.foldl_cons]
    rcases ih (if a.data < b.data then b else a) with h | h
    · rw [h]
      split_ifs with hc
      · exact Or.inr (List.mem_cons_self _ _)
      · exact Or.inl rfl
    · exact Or.inr (List.mem_cons_of_mem _ h)

/-- The running maximum bounds the start value and every list element. -/
theorem foldl_max_ge (l : List String) (a : String) :
    a.data ≤ (l.foldl (fun x b => if x.data < b.data then b else x) a).data ∧
      ∀ x ∈ l, x.data ≤ (l.foldl (fun x b => if x.data < b.data then b else x) a).data := by
  induction l generalizing a with
  | nil =>
    refine ⟨le_refl _, ?_⟩
    intro x hx
    cases hx
  | cons b t ih =>
    simp only [List.foldl_cons]
    obtain ⟨h1, h2⟩ := ih (if a.data < b.data then b else a)
    have hstart : a.data ≤ (if a.data < b.data then b else a).data := by
      split_ifs with hc
      · exact le_of_lt hc
      · exact le_refl _
    have hb : b.data ≤ (if a.data < b.data then b else a).data := by
      split_ifs with hc
      · exact le_refl _
      · exact not_lt.mp hc
    refine ⟨le_trans hstart h1, ?_⟩
    intro x hx
    rcases List.mem_cons.mp hx with rfl | hx
    · exact le_trans hb h1
    · exact h2 x hx

/-- The maximum of a nonempty string column is one of its values. -/
theorem maxString?_mem {l : List String} {m : String} (h : maxString? l = some m) :
    m ∈ l := by
  cases l with
  | nil => exact Option.noConfusion h
  | cons s t =>
    unfold maxString? at h
    injection h with h
    rcases foldl_max_mem t s with h2 | h2
    · rw [← h, h2]
      exact List.mem_cons_self _ _
    · rw [← h]
      exact List.mem_cons_of_mem _ h2

/-- The maximum of a string column bounds every value of the column. -/
theorem maxString?_ge {l : List String} {m : String} (h : maxString? l = some m) :
    ∀ x ∈ l, x.data ≤ m.data := by
  cases l with
  | nil => exact Option.noConfusion h
  | cons s t =>
    unfold maxString? at h
    injection h with h
    intro x hx
    obtain ⟨h1, h2⟩ := foldl_max_ge t s
    rcases List.mem_cons.mp hx with rfl | hx
    · exact h ▸ h1
    · exact h ▸ h2 x hx

/-- In a strictly descending list, the index of an element equals the
number of elements strictly greater than it. -/
theorem findIdx_sorted_desc (L : List String) (d : String)
    (hnd : L.Nodup) (hsort : L.Pairwise (fun a b => b.data ≤ a.data)) (hd : d ∈ L) :
    L.findIdx (fun e => decide (e = d)) =
      (L.filter (fun e => decide (d.data < e.data))).length := by
  induction L with
  | nil => cases hd
  | cons x t ih =>
    have hxt : ∀ e ∈ t, e.data ≤ x.data := (List.pairwise_cons.mp hsort).1
    rw [List.findIdx_cons, List.filter_cons]
    by_cases hdx : x = d
    · subst hdx
      have hnil : t.filter (fun e => decide (x.data < e.data)) = [] := by
        rw [List.filter_eq_nil_iff]
        intro e he
        simp only [decide_eq_true_eq]
        exact not_lt.mpr (hxt e he)
      have hdec : decide (x = x) = true := by simp
      have hflt : decide (x.data < x.data) = false := by simp
      rw [hdec, hflt]
      simp only [cond_true]
      rw [if_neg (by decide), hnil]
      rfl
    · have hdt : d ∈ t := by
        rcases List.mem_cons.mp hd with h | h
        · exact absurd h.symm hdx
        · exact h
      have hdata : d.data ≠ x.data := by
        intro hdd
        refine hdx ?_
        cases x
        cases d
        cases hdd
        rfl
      have hlt : d.data < x.data := lt_of_le_of_ne (hxt d hdt) hdata
      have hdec : decide (x = d) = false := by simp [hdx]
      have hflt : decide (d.data < x.data) = true := by simp [hlt]
      rw [hdec, hflt]
      simp only [cond_false, if_true, List.length_cons]
      rw [ih (List.nodup_cons.mp hnd).2 (List.pairwise_cons.mp hsort).2 hdt]

/-- The positional formulation of the dense descending rank (the words
of the claim) agrees with the pandas counting formulation, for every
value of the column. -/
theorem specDenseRank_eq_pandas (dates : List String) (d : String) (hd : d ∈ dates) :
    specDenseRankDesc dates d = pandasDenseRankDesc dates d := by
  unfold specDenseRankDesc pandasDenseRankDesc
  have hperm : ((dates.dedup).mergeSort (fun a b => !decide (a.data < b.data))).Perm
      dates.dedup := List.mergeSort_perm _ _
  have hnd : ((dates.dedup).mergeSort (fun a b => !decide (a.data < b.data))).Nodup :=
    (hperm.nodup_iff).mpr (List.nodup_dedup _)
  have htrans : ∀ a b c : String, (!decide (a.data < b.data)) = true →
      (!decide (b.data < c.data)) = true → (!decide (a.data < c.data)) = true := by
    intro a b c hab hbc
    simp only [Bool.not_eq_true', decide_eq_false_iff_not, not_lt] at hab hbc ⊢
    exact le_trans hbc hab
  have htotal : ∀ a b : String,
      ((!decide (a.data < b.data)) || (!decide (b.data < a.data))) = true := by
    intro a b
    simp only [Bool.or_eq_true, Bool.not_eq_true', decide_eq_false_iff_not, not_lt]
    rcases le_total a.data b.data with h | h
    · exact Or.inr h
    · exact Or.inl h
  have hsort : ((dates.dedup).mergeSort (fun a b => !decide (a.data < b.data))).Pairwise
      (fun a b => b.data ≤ a.data) := by
    refine (List.sorted_mergeSort htrans htotal dates.dedup).imp ?_
    intro a b h
    simp only [Bool.not_eq_true', decide_eq_false_iff_not, not_lt] at h
    exact h
  have hmem : d ∈ (dates.dedup).mergeSort (fun a b => !decide (a.data < b.data)) := by
    rw [List.mem_mergeSort, List.mem_dedup]
    exact hd
  rw [findIdx_sorted_desc _ d hnd hsort hmem]
  rw [(hperm.filter (fun e => decide (d.data < e.data))).length_eq]

/-- Claim C2: in every successfully normalized batch, days_ago of each
record is the dense rank of its acquisition date among the distinct
acquisition dates of the batch in descending order, and this rank is
zero-based (some record ranks 0) exactly when the most recent
acquisition date of the batch compares equal to the current date,
otherwise one-based (no record ranks 0). -/
theorem c2_days_ago_rank (b : RawBatch) (today : Date) (pb : ProcBatch)
    (hok : process_csv_data b today = Except.ok pb) :
    (pb.rows.map (fun r => r.days_ago) =
      b.raws.map (fun r =>
        if mostRecentEqualsToday (b.raws.map (fun r2 => r2.acq_date)) today then
          specDenseRankDesc (b.raws.map (fun r2 => r2.acq_date)) r.acq_date - 1
        else specDenseRankDesc (b.raws.map (fun r2 => r2.acq_date)) r.acq_date))
  ∧ (b.raws ≠ [] →
      ((∃ r ∈ pb.rows, r.days_ago = 0) ↔
        mostRecentEqualsToday (b.raws.map (fun r2 => r2.acq_date)) today = true)) := by
  unfold process_csv_data at hok
  by_cases hguard : (b.classified.map
      (fun t => parseAcqDatetime t.2.2.acq_date t.2.2.acq_time)).any
      (fun o => o.isNone) = true
  · rw [if_pos hguard] at hok
    exact Except.noConfusion hok
  rw [if_neg hguard] at hok
  injection hok with hok
  subst hok
  simp only [classified_dates_eq b]
  constructor
  · rw [List.map_map]
    conv_rhs => rw [← classified_snd_eq_raws b, List.map_map]
    refine List.map_congr_left ?_
    intro t ht
    have hmem2 : t.2.2.acq_date ∈
        List.map (fun r => r.acq_date) (List.map (fun t2 => t2.2.2) b.classified) := by
      rw [List.map_map]
      exact List.mem_map_of_mem _ ht
    simp only [Function.comp]
    rw [specDenseRank_eq_pandas _ _ hmem2, classified_snd_eq_raws b]
  · intro hne
    constructor
    · rintro ⟨r, hr, hzero⟩
      obtain ⟨t, ht, rfl⟩ := List.mem_map.mp hr
      by_contra hflag
      rw [Bool.not_eq_true] at hflag
      simp [hflag, pandasDenseRankDesc] at hzero
    · intro hflag
      have hmax : ∃ m, maxString? (b.raws.map (fun r2 => r2.acq_date)) = some m := by
        unfold mostRecentEqualsToday at hflag
        rcases hm : maxString? (b.raws.map (fun r2 => r2.acq_date)) with _ | m
        · rw [hm] at hflag
          exact Bool.noConfusion hflag
        · exact ⟨m, hm⟩
      obtain ⟨m, hm⟩ := hmax
      have hmemm : m ∈ b.raws.map (fun r2 => r2.acq_date) := maxString?_mem hm
      obtain ⟨r0, hr0, hr0m⟩ := List.mem_map.mp hmemm
      have hr0cls : r0 ∈ b.classified.map (fun t => t.2.2) := by
        rw [classified_snd_eq_raws b]
        exact hr0
      obtain ⟨t0, ht0, ht0r⟩ := List.mem_map.mp hr0cls
      have hrank : pandasDenseRankDesc (b.raws.map (fun r2 => r2.acq_date))
          t0.2.2.acq_date = 1 := by
        unfold pandasDenseRankDesc
        have hfl : ((b.raws.map (fun r2 => r2.acq_date)).dedup).filter
            (fun e => decide (t0.2.2.acq_date.data < e.data)) = [] := by
          rw [List.filter_eq_nil_iff]
          intro e he
          simp only [decide_eq_true_eq]
          refine not_lt.mpr ?_
          have := maxString?_ge hm e (List.mem_dedup.mp he)
          rw [ht0r, hr0m]
          exact this
        rw [hfl]
        rfl
      refine ⟨_, List.mem_map_of_mem _ ht0, ?_⟩
      simp [hflag, hrank]

/-- Claim C4: in a normalized batch, a numeric confidence column marks
high_confidence exactly on values at least 70 and renames
brightness/bright_t31 onto brightness_a/brightness_b; a textual
confidence column marks high_confidence exactly on membership in
["nominal", "high"] and renames bright_ti4/bright_ti5; any other column
representation leaves every high_confidence false, performs no rename
(brightness fields stay unset), and by itself causes no failure: a batch
in that representation whose datetimes all parse still normalizes
successfully. -/
theorem c4_confidence_classification (b : RawBatch) (today : Date) :
    (∀ pb, process_csv_data b today = Except.ok pb →
      (∀ vals, b = RawBatch.numeric vals →
        pb.rows.map (fun r => r.high_confidence) = vals.map (fun p => decide (70 ≤ p.1)) ∧
        pb.brightnessSource = some ("brightness", "bright_t31")) ∧
      (∀ vals, b = RawBatch.textual vals →
        pb.rows.map (fun r => r.high_confidence) =
          vals.map (fun p => decide (p.1 ∈ (["nominal", "high"] : List String))) ∧
        pb.brightnessSource = some ("bright_ti4", "bright_ti5")) ∧
      (∀ vals, b = RawBatch.otherRep vals →
        (∀ r ∈ pb.rows, r.high_confidence = false) ∧
        pb.brightnessSource = none))
  ∧ (∀ vals, b = RawBatch.otherRep vals →
      (∀ r ∈ b.raws, (parseAcqDatetime r.acq_date r.acq_time).isSome = true) →
      (process_csv_data b today).isOk = true) := by
  constructor
  · intro pb hok
    unfold process_csv_data at hok
    by_cases hguard : (b.classified.map
        (fun t => parseAcqDatetime t.2.2.acq_date t.2.2.acq_time)).any
        (fun o => o.isNone) = true
    · rw [if_pos hguard] at hok
      exact Except.noConfusion hok
    · rw [if_neg hguard] at hok
      injection hok with hok
      subst hok
      refine ⟨?_, ?_, ?_⟩
      · rintro vals rfl
        refine ⟨?_, rfl⟩
        simp [RawBatch.classified, List.map_map, Function.comp]
      · rintro vals rfl
        refine ⟨?_, rfl⟩
        simp [RawBatch.classified, List.map_map, Function.comp]
      · rintro vals rfl
        refine ⟨?_, rfl⟩
        intro r hr
        simp only [RawBatch.classified, List.map_map] at hr
        obtain ⟨p, hp, rfl⟩ := List.mem_map.mp hr
        rfl
  · rintro vals rfl hall
    have hng : ¬ ((RawBatch.otherRep vals).classified.map
        (fun t => parseAcqDatetime t.2.2.acq_date t.2.2.acq_time)).any
        (fun o => o.isNone) = true := by
      intro hguard
      obtain ⟨r, hr, hnone⟩ := (parse_guard_iff _).mp hguard
      have hsome := hall r hr
      rw [hnone] at hsome
      exact absurd hsome (by decide)
    unfold process_csv_data
    rw [if_neg hng]
    rfl

/-- Witness for C4: on the concrete numeric batch, confidence 85 yields
true, confidence 50 yields false, and the MODIS brightness columns are
the rename source. -/
theorem c4_confidence_classification_witness :
    procNumeric.rows.map (fun r => r.high_confidence) = [true, false] ∧
    procNumeric.brightnessSource = some ("brightness", "bright_t31") := by
  have h := ((c4_confidence_classification batchNumeric ⟨2024, 1, 2⟩).1 procNumeric
    (by rfl)).1 [(85, rowTerra), (50, rowAqua)] rfl
  exact ⟨h.1.trans (by decide), h.2⟩

/-- Claim C5: a raw batch containing any row whose acquisition datetime
fails to parse is rejected as a whole with the batch-wide parse error
(no per-row skipping), and in every successfully normalized batch each
record carries the (necessarily non-null) parsed datetime of its raw
row. -/
theorem c5_fail_fast (b : RawBatch) (today : Date) :
    ((∃ r ∈ b.raws, parseAcqDatetime r.acq_date r.acq_time = none) →
      process_csv_data b today = Except.error "Error converting acquisition datetime")
  ∧ (∀ pb, process_csv_data b today = Except.ok pb →
      pb.rows.map (fun r => some r.acq_datetime) =
        b.raws.map (fun r => parseAcqDatetime r.acq_date r.acq_time)) := by
  constructor
  · intro hex
    unfold process_csv_data
    rw [if_pos ((parse_guard_iff b).mpr hex)]
  · intro pb hok
    unfold process_csv_data at hok
    by_cases hguard : (b.classified.map
        (fun t => parseAcqDatetime t.2.2.acq_date t.2.2.acq_time)).any
        (fun o => o.isNone) = true
    · rw [if_pos hguard] at hok
      exact Except.noConfusion hok
    · rw [if_neg hguard] at hok
      injection hok with hok
      subst hok
      rw [← classified_snd_eq_raws b, List.map_map, List.map_map]
      refine List.map_congr_left ?_
      intro t ht
      rcases hs : parseAcqDatetime t.2.2.acq_date t.2.2.acq_time with _ | v
      · refine absurd ((parse_guard_iff b).mpr ⟨t.2.2, ?_, hs⟩) hguard
        rw [← classified_snd_eq_raws b]
        exact List.mem_map_of_mem _ ht
      · simp [Function.comp, hs]

/-- Witness for C2 on the concrete numeric batch normalized on
2024-01-02: the most recent date equals today, so days_ago is the
zero-based dense rank. -/
theorem c2_days_ago_rank_witness :
    (procNumeric.rows.map (fun r => r.days_ago) =
      batchNumeric.raws.map (fun r =>
        if mostRecentEqualsToday (batchNumeric.raws.map (fun r2 => r2.acq_date))
            ⟨2024, 1, 2⟩ then
          specDenseRankDesc (batchNumeric.raws.map (fun r2 => r2.acq_date)) r.acq_date - 1
        else
          specDenseRankDesc (batchNumeric.raws.map (fun r2 => r2.acq_date)) r.acq_date))
  ∧ (batchNumeric.raws ≠ [] →
      ((∃ r ∈ procNumeric.rows, r.days_ago = 0) ↔
        mostRecentEqualsToday (batchNumeric.raws.map (fun r2 => r2.acq_date))
          ⟨2024, 1, 2⟩ = true)) :=
  c2_days_ago_rank batchNumeric ⟨2024, 1, 2⟩ procNumeric (by rfl)

/-- Witness for C5: the concrete bad-date batch is rejected whole. -/
theorem c5_fail_fast_witness :
    process_csv_data batchBadDate ⟨2024, 1, 2⟩ =
      Except.error "Error converting acquisition datetime" :=
  (c5_fail_fast batchBadDate ⟨2024, 1, 2⟩).1
    ⟨⟨"2024-13-01", "0930", "N"⟩, by decide, by decide⟩

/-- Rows kept by keep-last deduplication are rows of the input. -/
theorem dropDupKeepLast_subset {l : List DetRow} {r : DetRow}
    (h : r ∈ dropDupKeepLast l) : r ∈ l := by
  induction l with
  | nil => cases h
  | cons a t ih =>
    unfold dropDupKeepLast at h
    split_ifs at h with hdup
    · exact List.mem_cons_of_mem _ (ih h)
    · rcases List.mem_cons.mp h with h2 | h2
      · rw [h2]
        exact List.mem_cons_self _ _
      · exact List.mem_cons_of_mem _ (ih h2)

/-- Keep-last deduplication keeps exactly, for every key, the last row
of the input carrying that key. -/
theorem mem_dropDupKeepLast {l : List DetRow} {r : DetRow} :
    r ∈ dropDupKeepLast l ↔
      ∃ k, (l.filter (fun x => decide (dedupKey x = k))).getLast? = some r := by
  induction l with
  | nil => simp [dropDupKeepLast]
  | cons a t ih =>
    unfold dropDupKeepLast
    split_ifs with hdup
    · rw [ih]
      constructor
      · rintro ⟨k, hk⟩
        refine ⟨k, ?_⟩
        rw [List.filter_cons]
        split_ifs with ha
        · cases htf2 : t.filter (fun x => decide (dedupKey x = k)) with
          | nil => rw [htf2] at hk; exact Option.noConfusion hk
          | cons y ys =>
            rw [htf2] at hk
            rw [List.getLast?_cons_cons]
            exact hk
        · exact hk
      · rintro ⟨k, hk⟩
        rw [List.filter_cons] at hk
        split_ifs at hk with ha
        · obtain ⟨x, hx, hxk⟩ := List.any_eq_true.mp hdup
          have hxk2 : decide (dedupKey x = k) = true := by
            rw [← of_decide_eq_true ha]
            exact hxk
          cases htf2 : t.filter (fun x2 => decide (dedupKey x2 = k)) with
          | nil =>
            exfalso
            have hxin : x ∈ t.filter (fun x2 => decide (dedupKey x2 = k)) :=
              List.mem_filter.mpr ⟨hx, hxk2⟩
            rw [htf2] at hxin
            cases hxin
          | cons y ys =>
            rw [htf2] at hk
            rw [List.getLast?_cons_cons] at hk
            exact ⟨k, htf2 ▸ hk⟩
        · exact ⟨k, hk⟩
    · constructor
      · intro hmem
        rcases List.mem_cons.mp hmem with h2 | h2
        · rw [h2]
          refine ⟨dedupKey a, ?_⟩
          rw [List.filter_cons]
          have htf : t.filter (fun x => decide (dedupKey x = dedupKey a)) = [] := by
            rw [List.filter_eq_nil_iff]
            intro x hx hxk
            exact hdup (List.any_eq_true.mpr ⟨x, hx, hxk⟩)
          rw [if_pos (by simp), htf]
          rfl
        · obtain ⟨k, hk⟩ := ih.mp h2
          refine ⟨k, ?_⟩
          rw [List.filter_cons]
          split_ifs with ha
          · exfalso
            have htf : t.filter (fun x => decide (dedupKey x = k)) = [] := by
              rw [List.filter_eq_nil_iff]
              intro x hx hxk
              refine hdup (List.any_eq_true.mpr ⟨x, hx, ?_⟩)
              rw [of_decide_eq_true ha]
              exact hxk
            rw [htf] at hk
            exact Option.noConfusion hk
          · exact hk
      · rintro ⟨k, hk⟩
        rw [List.filter_cons] at hk
        split_ifs at hk with ha
        · have htf : t.filter (fun x => decide (dedupKey x = k)) = [] := by
            rw [List.filter_eq_nil_iff]
            intro x hx hxk
            refine hdup (List.any_eq_true.mpr ⟨x, hx, ?_⟩)
            rw [of_decide_eq_true ha]
            exact hxk
          rw [htf] at hk
          have har : a = r := by simpa using hk
          rw [← har]
          exact List.mem_cons_self _ _
        · exact List.mem_cons_of_mem _ (ih.mpr ⟨k, hk⟩)

/-- After keep-last deduplication no two rows share a key. -/
theorem dropDupKeepLast_pairwise (l : List DetRow) :
    (dropDupKeepLast l).Pairwise (fun a b => dedupKey a ≠ dedupKey b) := by
  induction l with
  | nil => exact List.Pairwise.nil
  | cons a t ih =>
    unfold dropDupKeepLast
    split_ifs with hdup
    · exact ih
    · refine List.pairwise_cons.mpr ⟨?_, ih⟩
      intro b hb hkey
      refine hdup (List.any_eq_true.mpr ⟨b, dropDupKeepLast_subset hb, ?_⟩)
      simp [hkey]

/-- Claim C6: the combined GeoDataFrame consists of the projections of
the surviving detection rows; its coordinate reference is EPSG:4326;
every surviving row is high confidence; the surviving rows are sorted
ascending by acquisition datetime; no two surviving rows agree on the
key (latitude, longitude, acq_datetime, confidence, version); a row
survives exactly when it is the last row with its key among the
high-confidence rows of the concatenated feeds (so colliding records
collapse to the later-positioned record with all its fields); each
output record carries the point geometry (longitude, latitude); and the
rendered acquisition datetime is the fixed-format string of the
timestamp.  The transient columns scan, track, acq_date, acq_time,
brightness_a, brightness_b and daynight are structurally absent from
the output record type. -/
theorem c6_combiner (l1 l2 l3 : List DetRow) :
    (convert_firms_to_combined_gdf l1 l2 l3).rows = (combineDetRows l1 l2 l3).map projectRow
  ∧ (convert_firms_to_combined_gdf l1 l2 l3).crs = "EPSG:4326"
  ∧ (∀ r ∈ combineDetRows l1 l2 l3, r.high_confidence = true)
  ∧ List.Pairwise (fun a b : DetRow => dtCode a.acq_datetime ≤ dtCode b.acq_datetime)
      (combineDetRows l1 l2 l3)
  ∧ List.Pairwise (fun a b : DetRow => dedupKey a ≠ dedupKey b) (combineDetRows l1 l2 l3)
  ∧ (∀ r : DetRow, r ∈ combineDetRows l1 l2 l3 ↔
      ∃ k, (((l1 ++ l2 ++ l3).filter (fun x => x.high_confidence)).filter
        (fun x => decide (dedupKey x = k))).getLast? = some r)
  ∧ (∀ o ∈ (convert_firms_to_combined_gdf l1 l2 l3).rows,
      o.geometry = (o.longitude, o.latitude))
  ∧ (∀ r ∈ combineDetRows l1 l2 l3,
      (projectRow r).acq_datetime = fmtDateTime r.acq_datetime) := by
  have hnil : (([] : List DetRow) ++ l1 ++ l2 ++ l3) = l1 ++ l2 ++ l3 := by simp
  have hperm : (combineDetRows l1 l2 l3).Perm
      (dropDupKeepLast ((l1 ++ l2 ++ l3).filter (fun r => r.high_confidence))) := by
    unfold combineDetRows
    rw [hnil]
    exact List.mergeSort_perm _ _
  have htrans : ∀ a b c : DetRow, dtLe a.acq_datetime b.acq_datetime = true →
      dtLe b.acq_datetime c.acq_datetime = true →
      dtLe a.acq_datetime c.acq_datetime = true := by
    intro a b c hab hbc
    simp only [dtLe, decide_eq_true_eq] at hab hbc ⊢
    omega
  have htotal : ∀ a b : DetRow,
      (dtLe a.acq_datetime b.acq_datetime || dtLe b.acq_datetime a.acq_datetime) = true := by
    intro a b
    simp only [dtLe, Bool.or_eq_true, decide_eq_true_eq]
    omega
  refine ⟨rfl, rfl, ?_, ?_, ?_, ?_, ?_, ?_⟩
  · intro r hr
    have hr2 := dropDupKeepLast_subset (hperm.mem_iff.mp hr)
    exact (List.mem_filter.mp hr2).2
  · have hs := List.sorted_mergeSort htrans htotal
      (dropDupKeepLast ((([] : List DetRow) ++ l1 ++ l2 ++ l3).filter
        (fun r => r.high_confidence)))
    refine List.Pairwise.imp ?_ hs
    intro a b h
    simp only [dtLe, decide_eq_true_eq] at h
    exact h
  · refine (List.Perm.pairwise_iff (fun h => h.symm) hperm).mpr ?_
    exact dropDupKeepLast_pairwise _
  · intro r
    rw [hperm.mem_iff, mem_dropDupKeepLast]
  · intro o ho
    obtain ⟨r, hr, rfl⟩ := List.mem_map.mp ho
    rfl
  · intro r hr
    rfl

/-- Witness for C6: the combined frame over a concrete singleton feed is
built in EPSG:4326. -/
theorem c6_combiner_witness :
    (convert_firms_to_combined_gdf [detSample] [] []).crs = "EPSG:4326" :=
  (c6_combiner [detSample] [] []).2.1

/-- Claim C1: the claim states that the normalizer left-pads acq_time to
4 digits, concatenates with acq_date, and parses the result with a
YYYY-MM-DD HHMM format, so that acq_date="2024-01-01", acq_time="930"
yields 2024-01-01 09:30:00.  The source instead passes
format="%Y-%m-%d %H%M%S" (a seconds field the four padded time digits
cannot fill) to pd.to_datetime on lines 126-130, and strptime regex
backtracking then reads the padded "0930" as hour 09, minute 3,
second 0.  This theorem evaluates the embedded parser and the full
normalizer at the input named by the claim: the produced acquisition
datetime is 09:03:00, not the 09:30:00 the claim requires. -/
theorem c1_acq_datetime_code_bug :
    parseAcqDatetime "2024-01-01" "930" = some ⟨2024, 1, 1, 9, 3, 0⟩ ∧
    parseAcqDatetime "2024-01-01" "930" ≠ some ⟨2024, 1, 1, 9, 30, 0⟩ ∧
    process_csv_data (.numeric [(85, ⟨"2024-01-01", "930", "Terra"⟩)]) ⟨2024, 1, 1⟩ =
      Except.ok ⟨[⟨"2024-01-01", "0930", "Terra", "85", true, ⟨2024, 1, 1, 9, 3, 0⟩, 0⟩],
                 some ("brightness", "bright_t31")⟩ :=
  ⟨by decide, by decide, by rfl⟩

/-- Claim C3, counterexample: the claim asserts that the feed URL
builder succeeds exactly on strings of 32 lowercase hexadecimal
characters.  The source lowercases the key before the hexadecimal check
(line 53), so a 32-character uppercase hexadecimal key is accepted
although it is not lowercase hexadecimal. -/
theorem c3_lowercase_counterexample :
    (create_firms_csv_urls "ABCDEFABCDEFABCDEFABCDEFABCDEF12").isOk = true ∧
    specLowercaseHex32 "ABCDEFABCDEFABCDEFABCDEFABCDEF12" = false :=
  ⟨by rfl, by rfl⟩

/-- Claim C3 (amended): for every string, the feed URL builder succeeds
if and only if the string consists of exactly 32 hexadecimal characters,
case-insensitively (every character hexadecimal after lowercasing); on
success it returns exactly the three URLs of the three distinct fixed
sensor products (MODIS_NRT, VIIRS_NOAA20_NRT, VIIRS_SNPP_NRT), pairwise
different; every other string fails, and the builder performs no network
access (it is a pure string function). -/
theorem c3_feed_url_builder_amended (s : String) :
    ((create_firms_csv_urls s).isOk = true ↔
      (s.length = 32 ∧ s.data.all (fun c => hexDigits.contains c.toLower) = true))
  ∧ (∀ u1 u2 u3, create_firms_csv_urls s = .ok (u1, u2, u3) →
      u1 = FIRMS_API_URL ++ "/api/area/csv/" ++ s ++ "/MODIS_NRT/world/9" ∧
      u2 = FIRMS_API_URL ++ "/api/area/csv/" ++ s ++ "/VIIRS_NOAA20_NRT/world/9" ∧
      u3 = FIRMS_API_URL ++ "/api/area/csv/" ++ s ++ "/VIIRS_SNPP_NRT/world/9" ∧
      u1 ≠ u2 ∧ u1 ≠ u3 ∧ u2 ≠ u3) := by
  have len1 : ("/MODIS_NRT/world/9" : String).length = 18 := rfl
  have len2 : ("/VIIRS_NOAA20_NRT/world/9" : String).length = 25 := rfl
  have len3 : ("/VIIRS_SNPP_NRT/world/9" : String).length = 23 := rfl
  constructor
  · unfold create_firms_csv_urls
    split_ifs with h1 h2
    · refine iff_of_false (by simp [Except.isOk, Except.toBool]) ?_
      rintro ⟨hlen, -⟩
      rw [h1] at hlen
      exact absurd hlen (by decide)
    · refine iff_of_false (by simp [Except.isOk, Except.toBool]) ?_
      rintro ⟨hlen, hall⟩
      rcases h2 with h2 | h2
      · exact h2 hall
      · exact h2 hlen
    · refine iff_of_true rfl ?_
      push_neg at h2
      exact ⟨h2.2, h2.1⟩
  · intro u1 u2 u3 hok
    unfold create_firms_csv_urls at hok
    split_ifs at hok
    injection hok with hok
    obtain ⟨h1, h23⟩ := Prod.mk.inj hok
    obtain ⟨h2, h3⟩ := Prod.mk.inj h23
    refine ⟨h1.symm, h2.symm, h3.symm, ?_, ?_, ?_⟩
    · intro he
      have := congrArg String.length (h1.trans (he.trans h2.symm))
      simp only [String.length_append, len1, len2] at this
      omega
    · intro he
      have := congrArg String.length (h1.trans (he.trans h3.symm))
      simp only [String.length_append, len1, len3] at this
      omega
    · intro he
      have := congrArg String.length (h2.trans (he.trans h3.symm))
      simp only [String.length_append, len2, len3] at this
      omega

/-- Witness for the amended C3 theorem at a concrete valid credential. -/
theorem c3_feed_url_builder_amended_witness :
    (create_firms_csv_urls "0123456789abcdef0123456789abcdef").isOk = true :=
  (c3_feed_url_builder_amended "0123456789abcdef0123456789abcdef").1.mpr (by decide)

/-- Reprojection never changes the attribute part of any row. -/
theorem reprojectRows_snd {Pt A : Type} (f : Pt → Option Pt) :
    ∀ (rows rows2 : List (Pt × A)), reprojectRows f rows = some rows2 →
      rows2.map (fun r => r.2) = rows.map (fun r => r.2) := by
  intro rows
  induction rows with
  | nil =>
    intro rows2 h
    unfold reprojectRows at h
    injection h with h
    rw [← h]
  | cons r rest ih =>
    intro rows2 h
    unfold reprojectRows at h
    rcases hp : f r.1 with _ | q
    · rw [hp] at h
      exact Option.noConfusion h
    · rcases hr : reprojectRows f rest with _ | rest2
      · rw [hp, hr] at h
        exact Option.noConfusion h
      · rw [hp, hr] at h
        injection h with h
        rw [← h]
        simp [ih rest2 hr]

/-- Claim C7: when both inputs carry geometry, both are nonempty, and
the coordinate reference reconciliation succeeds (for equal references
it is the identity), the filter returns exactly the reconciled rows
lying within at least one boundary polygon: a row is retained iff its
point is within some polygon (logical OR over the boundary set), the
result is a sublist of the reconciled rows (original ordering, each
retained row kept whole with its attributes), and reconciliation itself
leaves every attribute part unchanged. -/
theorem c7_geofilter {Pt Poly A : Type} (within : Pt → Poly → Bool)
    (reproj : String → Pt → Option Pt) (firms : PointGdf Pt A) (country : PolyGdf Poly)
    (firms2 : PointGdf Pt A)
    (hg1 : firms.hasGeometryCol = true) (hg2 : country.hasGeometryCol = true)
    (hne1 : firms.rows ≠ []) (hne2 : country.polys ≠ [])
    (hrc : reconcileCrs reproj firms country = some firms2) :
    filter_firms_points_within_country_area within reproj firms country =
      Except.ok ⟨firms2.hasGeometryCol,
        firms2.rows.filter (fun r => country.polys.any (fun poly => within r.1 poly)),
        firms2.crs⟩
  ∧ (∀ pr : Pt × A,
      pr ∈ firms2.rows.filter (fun r => country.polys.any (fun poly => within r.1 poly)) ↔
        pr ∈ firms2.rows ∧ country.polys.any (fun poly => within pr.1 poly) = true)
  ∧ (firms2.rows.filter
      (fun r => country.polys.any (fun poly => within r.1 poly))).Sublist firms2.rows
  ∧ firms2.rows.map (fun r => r.2) = firms.rows.map (fun r => r.2) := by
  refine ⟨?_, ?_, List.filter_sublist _, ?_⟩
  · unfold filter_firms_points_within_country_area
    rw [if_neg (by simp [hg1, hg2]), if_neg (by simp [hne1, hne2]), hrc]
  · intro pr
    exact List.mem_filter
  · unfold reconcileCrs at hrc
    split_ifs at hrc with hcrs
    · unfold reprojectGdf at hrc
      rcases hr : reprojectRows (reproj country.crs) firms.rows with _ | rows2
      · rw [hr] at hrc
        exact Option.noConfusion hrc
      · rw [hr] at hrc
        injection hrc with hrc
        rw [← hrc]
        exact reprojectRows_snd _ _ _ hr
    · injection hrc with hrc
      rw [← hrc]

/-- Witness for C7: the inside point is retained, the outside point is
dropped, on the concrete frames. -/
theorem c7_geofilter_witness :
    filter_firms_points_within_country_area pointWithinRect (fun _ q => some q)
      samplePoints unitCountry =
      Except.ok ⟨true, [((5, 5), "inside")], "EPSG:4326"⟩ :=
  ((c7_geofilter pointWithinRect (fun _ q => some q) samplePoints unitCountry
    samplePoints rfl rfl (by decide) (by decide) (by rfl)).1).trans (by rfl)

/-- Claim C8: the geospatial filter fails with the geometry validation
error when either input lacks its geometry column; it produces an error
(never a silent empty success) whenever either input is empty; it fails
with the CRS validation error when both geometry and emptiness checks
pass but the reference reconciliation fails; and a successful result is
only possible on nonempty inputs. -/
theorem c8_geofilter_validation {Pt Poly A : Type} (within : Pt → Poly → Bool)
    (reproj : String → Pt → Option Pt) (firms : PointGdf Pt A) (country : PolyGdf Poly) :
    ((firms.hasGeometryCol = false ∨ country.hasGeometryCol = false) →
      filter_firms_points_within_country_area within reproj firms country =
        Except.error "One or both of the GeoDataFrames do not have geometry data")
  ∧ ((firms.rows = [] ∨ country.polys = []) →
      ∃ msg, filter_firms_points_within_country_area within reproj firms country =
        Except.error msg)
  ∧ (firms.hasGeometryCol = true → country.hasGeometryCol = true →
      firms.rows ≠ [] → country.polys ≠ [] →
      reconcileCrs reproj firms country = none →
      filter_firms_points_within_country_area within reproj firms country =
        Except.error "Error in transforming CRS of the GeoDataFrame")
  ∧ (∀ out, filter_firms_points_within_country_area within reproj firms country =
      Except.ok out → firms.rows ≠ [] ∧ country.polys ≠ []) := by
  refine ⟨?_, ?_, ?_, ?_⟩
  · intro h
    unfold filter_firms_points_within_country_area
    rw [if_pos h]
  · intro h
    unfold filter_firms_points_within_country_area
    by_cases hgeo : (firms.hasGeometryCol = false ∨ country.hasGeometryCol = false)
    · rw [if_pos hgeo]
      exact ⟨_, rfl⟩
    · rw [if_neg hgeo, if_pos (by rcases h with h | h <;> simp [h])]
      exact ⟨_, rfl⟩
  · intro hg1 hg2 hne1 hne2 hrc
    unfold filter_firms_points_within_country_area
    rw [if_neg (by simp [hg1, hg2]), if_neg (by simp [hne1, hne2]), hrc]
  · intro out hout
    unfold filter_firms_points_within_country_area at hout
    by_cases hgeo : (firms.hasGeometryCol = false ∨ country.hasGeometryCol = false)
    · rw [if_pos hgeo] at hout
      exact Except.noConfusion hout
    · rw [if_neg hgeo] at hout
      by_cases hemp : (firms.rows.isEmpty = true ∨ country.polys.isEmpty = true)
      · rw [if_pos hemp] at hout
        exact Except.noConfusion hout
      · rw [not_or] at hemp
        obtain ⟨h1, h2⟩ := hemp
        refine ⟨?_, ?_⟩
        · intro hnil
          exact h1 (by simp [hnil])
        · intro hnil
          exact h2 (by simp [hnil])

/-- Witness for C8: the empty point frame is rejected, not passed
through as an empty result. -/
theorem c8_geofilter_validation_witness :
    ∃ msg, filter_firms_points_within_country_area pointWithinRect (fun _ q => some q)
      emptyFirms unitCountry = Except.error msg :=
  (c8_geofilter_validation pointWithinRect (fun _ q => some q)
    emptyFirms unitCountry).2.1 (Or.inl rfl)

/-- Claim C10: shapely within for a point is interior containment, so a
point that lies on the boundary ring of every polygon it touches (it is
in no interior of any boundary polygon) is dropped by the filter:
containment is boundary-exclusive.  Stated for equal coordinate
references, where reconciliation leaves the points unchanged. -/
theorem c10_boundary_exclusive {A : Type} (firms : PointGdf (Int × Int) A)
    (country : PolyGdf Rect) (reproj : String → (Int × Int) → Option (Int × Int))
    (p : Int × Int) (a : A) (out : PointGdf (Int × Int) A)
    (hcrs : firms.crs = country.crs)
    (hb : ∀ rect ∈ country.polys, pointInClosedRect p rect = true →
      pointOnRectBoundary p rect = true)
    (hout : filter_firms_points_within_country_area pointWithinRect reproj firms country =
      Except.ok out) :
    (p, a) ∉ out.rows := by
  intro hmem
  unfold filter_firms_points_within_country_area at hout
  by_cases hgeo : (firms.hasGeometryCol = false ∨ country.hasGeometryCol = false)
  · rw [if_pos hgeo] at hout
    exact Except.noConfusion hout
  rw [if_neg hgeo] at hout
  by_cases hemp : (firms.rows.isEmpty = true ∨ country.polys.isEmpty = true)
  · rw [if_pos hemp] at hout
    exact Except.noConfusion hout
  rw [if_neg hemp] at hout
  have hrc : reconcileCrs reproj firms country = some firms := by
    unfold reconcileCrs
    rw [if_neg (by simp [hcrs])]
  rw [hrc] at hout
  injection hout with hout
  rw [← hout] at hmem
  have hpred := (List.mem_filter.mp hmem).2
  obtain ⟨rect, hr, hw⟩ := List.any_eq_true.mp hpred
  have hclosed : pointInClosedRect p rect = true := by
    unfold pointWithinRect at hw
    unfold pointInClosedRect
    simp only [decide_eq_true_eq] at hw ⊢
    omega
  have hbd := hb rect hr hclosed
  unfold pointOnRectBoundary at hbd
  rw [hw] at hbd
  simp at hbd

/-- Witness for C10: the point on the rectangle boundary is dropped on
the concrete frames. -/
theorem c10_boundary_exclusive_witness :
    ((0, 5), "edge") ∉ filteredBoundary.rows :=
  c10_boundary_exclusive boundaryFirms unitCountry (fun _ q => some q) (0, 5) "edge"
    filteredBoundary rfl (by decide) (by rfl)

/-- Filtering entries by key and then taking keys is filtering keys. -/
theorem keys_filter_ne {κ ρ : Type} [DecidableEq κ] (l : List (κ × ρ)) (k : κ) :
    (l.filter (fun e2 => decide (e2.1 ≠ k))).map Prod.fst =
      (l.map Prod.fst).filter (fun x => decide (x ≠ k)) := by
  induction l with
  | nil => rfl
  | cons e t ih =>
    rw [List.map_cons, List.filter_cons, List.filter_cons]
    by_cases he : e.1 = k
    · rw [if_neg (by simp [he]), if_neg (by simp [he])]
      exact ih
    · rw [if_pos (by simp [he]), if_pos (by simp [he]), List.map_cons, ih]

/-- One step of the wrapped run on a cache hit. -/
theorem lruRun_cons_hit {κ ρ : Type} [DecidableEq κ] (maxsize : Nat) (f : κ → ρ)
    (st : LruCache κ ρ) (k : κ) (ks : List κ) (e0 : κ × ρ)
    (hfind : st.entries.find? (fun e => decide (e.1 = k)) = some e0) :
    lruRun maxsize f st (k :: ks) =
      ((lruRun maxsize f
          ⟨(k, e0.2) :: st.entries.filter (fun e2 => decide (e2.1 ≠ k))⟩ ks).1,
       (k, e0.2, false) ::
         (lruRun maxsize f
          ⟨(k, e0.2) :: st.entries.filter (fun e2 => decide (e2.1 ≠ k))⟩ ks).2) := by
  simp only [lruRun, lruCall, hfind]

/-- One step of the wrapped run on a cache miss. -/
theorem lruRun_cons_miss {κ ρ : Type} [DecidableEq κ] (maxsize : Nat) (f : κ → ρ)
    (st : LruCache κ ρ) (k : κ) (ks : List κ)
    (hfind : st.entries.find? (fun e => decide (e.1 = k)) = none) :
    lruRun maxsize f st (k :: ks) =
      ((lruRun maxsize f ⟨((k, f k) :: st.entries).take maxsize⟩ ks).1,
       (k, f k, true) ::
         (lruRun maxsize f ⟨((k, f k) :: st.entries).take maxsize⟩ ks).2) := by
  simp only [lruRun, lruCall, hfind]

/-- Main cache lemma: starting from a state satisfying the invariant,
if the seen keys together with the keys of the remaining trace fit into
the capacity, then every logged call returns the value of the
underlying function, and a key already seen is never recomputed while
any other key is computed at most once. -/
theorem lruRun_good {κ ρ : Type} [DecidableEq κ] (maxsize : Nat) (f : κ → ρ) :
    ∀ (ks : List κ) (st : LruCache κ ρ) (seen : Finset κ),
      lruGood f seen st →
      (seen ∪ ks.toFinset).card ≤ maxsize →
      (∀ e ∈ (lruRun maxsize f st ks).2, e.2.1 = f e.1) ∧
      (∀ k, ((lruRun maxsize f st ks).2.filter
          (fun e => decide (e.1 = k) && e.2.2)).length ≤ if k ∈ seen then 0 else 1) := by
  intro ks
  induction ks with
  | nil =>
    intro st seen hgood hcard
    constructor
    · intro e he
      cases he
    · intro k
      simp only [lruRun, List.filter_nil, List.length_nil]
      split_ifs <;> omega
  | cons k1 ks ih =>
    intro st seen hgood hcard
    obtain ⟨hmemiff, hnodup, hvals⟩ := hgood
    have hsub : seen ∪ ks.toFinset ⊆ seen ∪ (k1 :: ks).toFinset := by
      refine Finset.union_subset_union_right ?_
      rw [List.toFinset_cons]
      exact Finset.subset_insert _ _
    rcases hfind : st.entries.find? (fun e => decide (e.1 = k1)) with _ | e0
    · -- miss: k1 unseen, computed once, then seen
      have hk1keys : k1 ∉ st.keys := by
        intro hk
        obtain ⟨e, he, hek⟩ := List.mem_map.mp hk
        have := List.find?_eq_none.mp hfind e he
        simp [hek] at this
      have hk1 : k1 ∉ seen := fun hk => hk1keys ((hmemiff k1).mpr hk)
      have hkeyfin : st.keys.toFinset = seen :=
        Finset.ext (fun x => by rw [List.mem_toFinset]; exact hmemiff x)
      have hlen : st.entries.length = seen.card := by
        calc st.entries.length = st.keys.length := (List.length_map _ _).symm
          _ = st.keys.toFinset.card := (List.toFinset_card_of_nodup hnodup).symm
          _ = seen.card := by rw [hkeyfin]
      have hcard2 : seen.card + 1 ≤ maxsize := by
        have hsub2 : insert k1 seen ⊆ seen ∪ (k1 :: ks).toFinset := by
          intro x hx
          rcases Finset.mem_insert.mp hx with h | h
          · refine Finset.mem_union_right _ ?_
            rw [h, List.toFinset_cons]
            exact Finset.mem_insert_self _ _
          · exact Finset.mem_union_left _ h
        have hle := Finset.card_le_card hsub2
        rw [Finset.card_insert_of_not_mem hk1] at hle
        exact le_trans hle hcard
      have htake : ((k1, f k1) :: st.entries).take maxsize =
          (k1, f k1) :: st.entries := by
        refine List.take_of_length_le ?_
        rw [List.length_cons, hlen]
        exact hcard2
      have hkeys2 : (⟨(k1, f k1) :: st.entries⟩ : LruCache κ ρ).keys = k1 :: st.keys :=
        rfl
      have hgood2 : lruGood f (insert k1 seen)
          (⟨(k1, f k1) :: st.entries⟩ : LruCache κ ρ) := by
        refine ⟨?_, ?_, ?_⟩
        · intro x
          rw [hkeys2, List.mem_cons, Finset.mem_insert, hmemiff x]
        · rw [hkeys2]
          exact List.pairwise_cons.mpr
            ⟨fun x hx hne => hk1keys (hne ▸ hx), hnodup⟩
        · intro e he
          rcases List.mem_cons.mp he with h | h
          · rw [h]
          · exact hvals e h
      have hcard3 : (insert k1 seen ∪ ks.toFinset).card ≤ maxsize := by
        have : insert k1 seen ∪ ks.toFinset = seen ∪ (k1 :: ks).toFinset := by
          rw [List.toFinset_cons, Finset.insert_union, Finset.union_insert]
        rw [this]
        exact hcard
      obtain ⟨ihv, ihc⟩ := ih (⟨(k1, f k1) :: st.entries⟩ : LruCache κ ρ)
        (insert k1 seen) hgood2 hcard3
      rw [lruRun_cons_miss maxsize f st k1 ks hfind, htake]
      constructor
      · intro e he
        rcases List.mem_cons.mp he with h | h
        · rw [h]
        · exact ihv e h
      · intro k
        rw [List.filter_cons]
        have h2 := ihc k
        by_cases hkk : k1 = k
        · subst hkk
          rw [if_pos (by simp), List.length_cons]
          have h3 : (if k1 ∈ insert k1 seen then 0 else 1) = 0 :=
            if_pos (Finset.mem_insert_self _ _)
          rw [h3] at h2
          have h4 : (if k1 ∈ seen then 0 else 1) = 1 := if_neg hk1
          rw [h4]
          omega
        · rw [if_neg (by simp [hkk])]
          have hiff : k ∈ insert k1 seen ↔ k ∈ seen := by
            rw [Finset.mem_insert, or_iff_right (fun h => hkk h.symm)]
          by_cases hks : k ∈ seen
          · have h3 : (if k ∈ insert k1 seen then 0 else 1) = 0 := if_pos (hiff.mpr hks)
            rw [h3] at h2
            have h4 : (if k ∈ seen then 0 else 1) = 0 := if_pos hks
            rw [h4]
            exact h2
          · have h3 : (if k ∈ insert k1 seen then 0 else 1) = 1 :=
              if_neg (fun h => hks (hiff.mp h))
            rw [h3] at h2
            have h4 : (if k ∈ seen then 0 else 1) = 1 := if_neg hks
            rw [h4]
            exact h2
    · -- hit: k1 already cached, no computation
      have he0mem : e0 ∈ st.entries := List.mem_of_find?_eq_some hfind
      have he0k : e0.1 = k1 := by
        have he0p := List.find?_some hfind
        simpa using he0p
      have hk1 : k1 ∈ seen := by
        refine (hmemiff k1).mp ?_
        exact List.mem_map.mpr ⟨e0, he0mem, he0k⟩
      have he0v : e0.2 = f k1 := by
        rw [hvals e0 he0mem, he0k]
      have hgood2 : lruGood f seen
          (⟨(k1, e0.2) :: st.entries.filter (fun e2 => decide (e2.1 ≠ k1))⟩ :
            LruCache κ ρ) := by
        refine ⟨?_, ?_, ?_⟩
        · intro x
          simp only [LruCache.keys, List.map_cons, List.mem_cons, keys_filter_ne,
            List.mem_filter, decide_eq_true_eq]
          constructor
          · rintro (h | ⟨h, -⟩)
            · rw [h]
              exact hk1
            · exact (hmemiff x).mp h
          · intro hx
            by_cases hxk : x = k1
            · exact Or.inl hxk
            · exact Or.inr ⟨(hmemiff x).mpr hx, hxk⟩
        · rw [LruCache.keys, List.map_cons, keys_filter_ne]
          refine List.pairwise_cons.mpr ⟨?_, List.Nodup.filter _ hnodup⟩
          intro x hx hne
          have hxt := (List.mem_filter.mp hx).2
          rw [← hne] at hxt
          simp at hxt
        · intro e he
          rcases List.mem_cons.mp he with h | h
          · rw [h, he0v]
          · exact hvals e (List.mem_of_mem_filter h)
      have hcard3 : (seen ∪ ks.toFinset).card ≤ maxsize :=
        le_trans (Finset.card_le_card hsub) hcard
      obtain ⟨ihv, ihc⟩ := ih _ seen hgood2 hcard3
      rw [lruRun_cons_hit maxsize f st k1 ks e0 hfind]
      constructor
      · intro e he
        rcases List.mem_cons.mp he with h | h
        · rw [h]
          exact he0v
        · exact ihv e h
      · intro k
        rw [List.filter_cons]
        rw [if_neg (by simp)]
        exact ihc k

set_option maxRecDepth 10000 in
/-- Claim C9, counterexample: the memoization decorator on line 157 is
functools.lru_cache with its default capacity of 128 entries and
least-recently-used eviction.  A call sequence that uses 129 distinct
keys and then repeats the first key computes that key twice, so the
claim that each distinct key is computed at most once for the process
lifetime fails. -/
theorem c9_lru_counterexample :
    lruComputeCount 128 (fun n : Nat => n) (List.range 129 ++ [0]) 0 = 2 := by
  decide

/-- Claim C9 (amended): the combiner is memoized by functools.lru_cache
with the default capacity of 128 entries and least-recently-used
eviction, so at-most-once computation per distinct key holds as long as
at most 128 distinct keys (order-sensitive value-equal cache keys) are
used in the process: under that bound every key is computed at most
once across any call sequence from the empty cache, and every call
returns the value of the underlying computation for its key (hits are
served from the cache without recomputation).  With more than 128
distinct keys, eviction can force recomputation. -/
theorem c9_memoization_amended {κ ρ : Type} [DecidableEq κ] (f : κ → ρ) (ks : List κ)
    (hcard : ks.toFinset.card ≤ 128) :
    (∀ k, lruComputeCount 128 f ks k ≤ 1) ∧
    (∀ e ∈ (lruRun 128 f ⟨[]⟩ ks).2, e.2.1 = f e.1) := by
  have hgood : lruGood f ∅ (⟨[]⟩ : LruCache κ ρ) := by
    refine ⟨?_, List.Pairwise.nil, ?_⟩
    · intro k
      simp [LruCache.keys]
    · intro e he
      cases he
  have h := lruRun_good 128 f ks ⟨[]⟩ ∅ hgood (by simpa using hcard)
  refine ⟨?_, h.1⟩
  intro k
  have hc := h.2 k
  rw [if_neg (Finset.not_mem_empty k)] at hc
  exact hc

/-- Witness for the amended C9 theorem: with two calls on one key, the
key is computed at most once. -/
theorem c9_memoization_amended_witness :
    lruComputeCount 128 (fun n : Nat => n) [7, 7] 7 ≤ 1 :=
  (c9_memoization_amended (fun n : Nat => n) [7, 7] (by decide)).1 7

end ActiveFires
